import Mathlib

/-!
Verification of the hashed string equality/inequality matching engine
(`stringLookup`, Go package `expr`).

The engine is embedded shallowly: Go maps become association lists, the
mutation of state becomes explicit state passing, and the concurrent
two-phase `Match` becomes a sequential fold (phase 2 starts only after
phase 1's pool has been waited on, so the sequential model preserves the
phase boundary and the value of the `neqOptimized` signal read by phase 2).
Machine integers are `Nat` with explicit reduction modulo `2 ^ 64`.
-/

namespace ExprEngine

/-! ### xxhash64

`stringLookup.hash` computes `xxhash.Sum64String` and renders the 64-bit
digest in base 36 (`strconv.FormatUint(ui, 36)`).  The XXH64 algorithm is
reproduced here over `Nat`, reducing modulo `2 ^ 64` wherever the Go/C
implementation relies on 64-bit wraparound.  Strings are hashed over their
UTF-8 bytes, as Go strings are.
-/

def M64 : Nat := 2 ^ 64

def prime1 : Nat := 11400714785074694791
def prime2 : Nat := 14029467366897019727
def prime3 : Nat := 1609587929392839161
def prime4 : Nat := 9650029242287828579
def prime5 : Nat := 2870177450012600261

/-- 64-bit left rotation.  For `x < 2 ^ 64` the two summands occupy
disjoint bit ranges of the rotated word, so addition equals bitwise or. -/
def rotl64 (x r : Nat) : Nat := (x * 2 ^ r + x / 2 ^ (64 - r)) % M64

/-- One XXH64 accumulator round. -/
def xxRound (acc lane : Nat) : Nat :=
  rotl64 ((acc + lane * prime2) % M64) 31 * prime1 % M64

/-- XXH64 merge round used when folding the four stripe accumulators. -/
def xxMergeRound (acc val : Nat) : Nat :=
  (Nat.xor acc (xxRound 0 val) * prime1 + prime4) % M64

/-- Little-endian 64-bit read of eight bytes. -/
def le64 (b0 b1 b2 b3 b4 b5 b6 b7 : Nat) : Nat :=
  b0 + b1 * 2 ^ 8 + b2 * 2 ^ 16 + b3 * 2 ^ 24 + b4 * 2 ^ 32 + b5 * 2 ^ 40 +
    b6 * 2 ^ 48 + b7 * 2 ^ 56

/-- Little-endian 32-bit read of four bytes. -/
def le32 (b0 b1 b2 b3 : Nat) : Nat :=
  b0 + b1 * 2 ^ 8 + b2 * 2 ^ 16 + b3 * 2 ^ 24

/-- The 32-byte stripe loop: while at least 32 bytes remain, feed four
64-bit lanes into the four accumulators. -/
def xxStripes : Nat → Nat → Nat → Nat → List Nat →
    Nat × Nat × Nat × Nat × List Nat
  | v1, v2, v3, v4,
    a0 :: a1 :: a2 :: a3 :: a4 :: a5 :: a6 :: a7 ::
    b0 :: b1 :: b2 :: b3 :: b4 :: b5 :: b6 :: b7 ::
    c0 :: c1 :: c2 :: c3 :: c4 :: c5 :: c6 :: c7 ::
    d0 :: d1 :: d2 :: d3 :: d4 :: d5 :: d6 :: d7 :: rest =>
      xxStripes (xxRound v1 (le64 a0 a1 a2 a3 a4 a5 a6 a7))
        (xxRound v2 (le64 b0 b1 b2 b3 b4 b5 b6 b7))
        (xxRound v3 (le64 c0 c1 c2 c3 c4 c5 c6 c7))
        (xxRound v4 (le64 d0 d1 d2 d3 d4 d5 d6 d7)) rest
  | v1, v2, v3, v4, l => (v1, v2, v3, v4, l)

/-- Tail loop consuming 8-byte words. -/
def xxTail8 : Nat → List Nat → Nat × List Nat
  | h, b0 :: b1 :: b2 :: b3 :: b4 :: b5 :: b6 :: b7 :: rest =>
      xxTail8
        ((rotl64 (Nat.xor h (xxRound 0 (le64 b0 b1 b2 b3 b4 b5 b6 b7))) 27 *
            prime1 + prime4) % M64) rest
  | h, l => (h, l)

/-- Tail step consuming a 4-byte word (runs at most once after `xxTail8`,
matching the reference implementation's loop structure). -/
def xxTail4 : Nat → List Nat → Nat × List Nat
  | h, b0 :: b1 :: b2 :: b3 :: rest =>
      xxTail4
        ((rotl64 (Nat.xor h (le32 b0 b1 b2 b3 * prime1 % M64)) 23 * prime2 +
            prime3) % M64) rest
  | h, l => (h, l)

/-- Tail loop consuming single bytes. -/
def xxBytes : Nat → List Nat → Nat
  | h, [] => h
  | h, b :: rest =>
      xxBytes (rotl64 (Nat.xor h (b * prime5 % M64)) 11 * prime1 % M64) rest

/-- Final avalanche mix. -/
def xxAvalanche (h0 : Nat) : Nat :=
  let h1 := Nat.xor h0 (h0 / 2 ^ 33)
  let h2 := h1 * prime2 % M64
  let h3 := Nat.xor h2 (h2 / 2 ^ 29)
  let h4 := h3 * prime3 % M64
  Nat.xor h4 (h4 / 2 ^ 32)

/-- XXH64 of a byte sequence with the given seed. -/
def xxh64 (seed : Nat) (input : List Nat) : Nat :=
  let len := input.length
  let start :=
    if 32 ≤ len then
      let v1 := (seed + prime1 + prime2) % M64
      let v2 := (seed + prime2) % M64
      let v3 := seed % M64
      let v4 := (seed + M64 - prime1 % M64) % M64
      let s := xxStripes v1 v2 v3 v4 input
      let w1 := s.1
      let w2 := s.2.1
      let w3 := s.2.2.1
      let w4 := s.2.2.2.1
      let h0 := (rotl64 w1 1 + rotl64 w2 7 + rotl64 w3 12 + rotl64 w4 18) % M64
      (xxMergeRound (xxMergeRound (xxMergeRound (xxMergeRound h0 w1) w2) w3) w4,
        s.2.2.2.2)
    else ((seed + prime5) % M64, input)
  let t8 := xxTail8 ((start.1 + len) % M64) start.2
  let t4 := xxTail4 t8.1 t8.2
  xxAvalanche (xxBytes t4.1 t4.2)

/-! ### UTF-8 bytes and base-36 rendering -/

/-- UTF-8 encoding of a single code point. -/
def utf8CharBytes (c : Char) : List Nat :=
  let n := c.toNat
  if n < 0x80 then [n]
  else if n < 0x800 then [0xC0 + n / 0x40, 0x80 + n % 0x40]
  else if n < 0x10000 then
    [0xE0 + n / 0x1000, 0x80 + n / 0x40 % 0x40, 0x80 + n % 0x40]
  else
    [0xF0 + n / 0x40000, 0x80 + n / 0x1000 % 0x40, 0x80 + n / 0x40 % 0x40,
      0x80 + n % 0x40]

/-- The UTF-8 bytes of a string, as Go's `string` → `[]byte` conversion. -/
def utf8Bytes (s : String) : List Nat :=
  s.data.foldr (fun c acc => utf8CharBytes c ++ acc) []

/-- Digit characters `0-9a-z`, as `strconv.FormatUint` uses for base 36. -/
def digit36 (n : Nat) : Char :=
  if n < 10 then Char.ofNat (48 + n) else Char.ofNat (87 + n)

/-- Base-36 digits of `n`, most significant first, accumulated onto `acc`.
The first argument is structural fuel; since `n` strictly shrinks under
division by 36, fuel `n` always suffices. -/
def toBase36Aux : Nat → Nat → List Char → List Char
  | 0, n, acc => digit36 (n % 36) :: acc
  | fuel + 1, n, acc =>
      if n < 36 then digit36 n :: acc
      else toBase36Aux fuel (n / 36) (digit36 (n % 36) :: acc)

/-- `strconv.FormatUint n 36`: base-36 rendering with digits `0-9a-z`. -/
def toBase36 (n : Nat) : String := String.mk (toBase36Aux n n [])

/-- `stringLookup.hash`: xxhash64 of the string, rendered in base 36. -/
def hash (input : String) : String := toBase36 (xxh64 0 (utf8Bytes input))

/-! ### Data model

`ExpressionPart`, `StoredExpressionPart`, `GroupID` and `MatchResult` are
declared outside the shown file; they are modelled from the spec. -/

/-- The operators this engine distinguishes: `operators.Equals`,
`operators.NotEquals`, and everything else (collapsed into one case, since
the engine treats every other operator uniformly as unsupported). -/
inductive Op where
  | equals
  | notEquals
  | other
deriving DecidableEq

/-- Modelled from the spec: a predicate is an operator, a field identifier
(path string), and a literal string value to compare against. -/
structure Predicate where
  Operator : Op
  Ident : String
  Literal : String
deriving DecidableEq

/-- `Predicate.LiteralAsString` returns the literal as a string. -/
def Predicate.LiteralAsString (p : Predicate) : String := p.Literal

/-- Modelled from the spec: `GroupID` identifies a conjunction/disjunction
unit and carries an optimization flag/threshold (`Flag()`), a small
non-negative integer; `OptimizeNone` means no special handling. -/
structure GroupID where
  gid : Nat
  flag : Nat
deriving DecidableEq

/-- The `OptimizeNone` flag value. -/
def OptimizeNone : Nat := 0

/-- `GroupID.Flag`: the group's optimization threshold. -/
def GroupID.Flag (g : GroupID) : Nat := g.flag

/-- Modelled from the spec: the storage-optimized form of an expression
part kept inside the engine's indexes; equality-comparable against a
transient `ExpressionPart` for removal.  The predicate identity key is
modelled as the predicate itself.  `Ident` is an optional declared
identifier consulted by `equalitySearch` ("parts with no declared
identifier match any path"). -/
structure StoredExpressionPart where
  GroupID : GroupID
  EvaluableID : Nat
  Ident : Option String
  PredicateID : Predicate
deriving DecidableEq

/-- Modelled from the spec: a predicate plus identifiers of the owning
expression (`EvaluableID`) and the group it belongs to (`GroupID`). -/
structure ExpressionPart where
  GroupID : GroupID
  EvaluableID : Nat
  Predicate : Predicate
deriving DecidableEq

/-- Modelled from the spec: `ToStored` produces the storage-optimized form.
It carries no declared identifier, consistently with `Search`/phase-1
matching "ignoring the variable name entirely". -/
def ExpressionPart.ToStored (p : ExpressionPart) : StoredExpressionPart :=
  { GroupID := p.GroupID, EvaluableID := p.EvaluableID, Ident := none,
    PredicateID := p.Predicate }

/-- Modelled from the spec: the storage-equality contract comparing a
transient part against a stored one. -/
def ExpressionPart.EqualsStored (p : ExpressionPart)
    (s : StoredExpressionPart) : Bool :=
  p.ToStored = s

/-- Occurrence count of the pair `(e, g)` in a list of hits. -/
def countHits : List (Nat × GroupID) → Nat → GroupID → Nat
  | [], _, _ => 0
  | (e', g') :: rest, e, g =>
      (if e' = e ∧ g' = g then 1 else 0) + countHits rest e g

/-- Modelled from the spec: the match-result accumulator, a multiset of
(EvaluableID, GroupID) hits queryable by count per pair.  Concurrency
safety is irrelevant in the sequential model. -/
structure MatchResult where
  hits : List (Nat × GroupID)
deriving DecidableEq

/-- A fresh, empty accumulator. -/
def MatchResult.empty : MatchResult := ⟨[]⟩

/-- `MatchResult.Add`: record one (EvaluableID, GroupID) hit. -/
def MatchResult.Add (r : MatchResult) (e : Nat) (g : GroupID) : MatchResult :=
  ⟨(e, g) :: r.hits⟩

/-- `MatchResult.AddExprs`: bulk-record hits for a list of stored parts. -/
def MatchResult.AddExprs (r : MatchResult) (ps : List StoredExpressionPart) :
    MatchResult :=
  ps.foldl (fun acc sp => acc.Add sp.EvaluableID sp.GroupID) r

/-- `MatchResult.GroupMatches`: current accumulated hit count for the
pair. -/
def MatchResult.GroupMatches (r : MatchResult) (e : Nat) (g : GroupID) : Nat :=
  countHits r.hits e g

/-! ### The engine state

Go's `map[string]V` becomes an association list; a lookup distinguishes an
absent key from a key mapped to an empty bucket, exactly as `v, ok := m[k]`
does.  `map[string]struct{}` (the `vars` set) becomes a duplicate-free list
of keys. -/

/-- Association-list lookup, the `v, ok := m[k]` form of a Go map read. -/
def alookup {α : Type} : List (String × α) → String → Option α
  | [], _ => none
  | (k', v) :: rest, k => if k' = k then some v else alookup rest k

/-- Association-list update, the `m[k] = v` form of a Go map write. -/
def aset {α : Type} : List (String × α) → String → α → List (String × α)
  | [], k, v => [(k, v)]
  | (k', v') :: rest, k, v =>
      if k' = k then (k, v) :: rest else (k', v') :: aset rest k v

/-- Key-set insertion for `vars` (`map[string]struct{}`). -/
def varsInsert (vs : List String) (x : String) : List String :=
  if x ∈ vs then vs else vs ++ [x]

/-- `variableMap`: hashed literal value → bucket of stored parts. -/
abbrev variableMap := List (String × List StoredExpressionPart)

/-- `inequalityMap`: field path → hashed literal value → bucket. -/
abbrev inequalityMap := List (String × variableMap)

/-- The engine state: observed variable names, the equality index and the
inequality index.  The lock and the concurrency bound have no sequential
content. -/
structure stringLookup where
  vars : List String
  equality : variableMap
  inequality : inequalityMap
deriving DecidableEq

/-- `newStringEqualityMatcher`: the freshly constructed engine. -/
def newStringEqualityMatcher : stringLookup :=
  { vars := [], equality := [], inequality := [] }

/-- The error values `Add`/`Remove` can return. -/
inductive EngineErr where
  | unsupportedOperator
  | partNotFound
deriving DecidableEq

/-! ### Events and field extraction

The field extractor (`jp.ParseString`/`Get`) is an external collaborator;
an event is modelled as the extraction function itself, returning the list
of values found at a path.  Only stringness of a value matters to the
engine, so extracted values are a string or an opaque non-string.  Path
parsing is modelled as always succeeding; the parse-error path of `Match`
is orthogonal to the matching logic. -/

/-- An extracted event value: a string, or some non-string value. -/
inductive JValue where
  | str (s : String)
  | other
deriving DecidableEq

/-- An event, as the extraction function from field paths to the values
found there. -/
abbrev Event := String → List JValue

/-- The value-extraction step of both `Match` phases: default to the empty
string; if extraction returned at least one value and the first is a
string, use it. -/
def extractString (ev : Event) (path : String) : String :=
  match ev path with
  | JValue.str s :: _ => s
  | _ => ""

/-! ### Matching -/

/-- `stringLookup.equalitySearch`: look up the bucket keyed by the hash of
`input`; for each stored part, skip it when it declares an identifier
different from the searched variable; otherwise record its
(EvaluableID, GroupID) hit, and raise the `neqOptimized` signal when its
group's flag is not `OptimizeNone`.  Returns the updated result and the
signal. -/
def stringLookup.equalitySearch (n : stringLookup) (v : String)
    (input : String) (result : MatchResult) : MatchResult × Bool :=
  let hashedInput := hash input
  ((alookup n.equality hashedInput).getD []).foldl
    (fun acc part =>
      if part.Ident.isSome ∧ part.Ident ≠ some v then acc
      else
        (acc.1.Add part.EvaluableID part.GroupID,
          acc.2 || decide (part.GroupID.Flag ≠ OptimizeNone)))
    (result, false)

/-- Go's `int8(x)` conversion of a non-negative integer: the low byte
interpreted in two's complement, a value in `[-128, 127]`. -/
def toInt8 (x : Nat) : Int :=
  if x % 256 < 128 then (x % 256 : Nat) else (x % 256 : Nat) - 256

/-- The body of `inequalitySearch`'s loop over the (hash, bucket) pairs of
one field path: skip the bucket whose hash equals the event value's hash;
otherwise add it wholesale when the optimization signal is off, and
per-part subject to the group-flag threshold when it is on.  The
threshold check is `int8(res) < int8(expr.GroupID.Flag())`: both the
accumulated count and the flag pass through Go's `int8` conversion, so
the comparison wraps once either reaches 128. -/
def ineqStep (hashedInput : String) (neqOptimized : Bool)
    (racc : MatchResult) (entry : String × List StoredExpressionPart) :
    MatchResult :=
  if entry.1 = hashedInput then racc
  else if neqOptimized = false then racc.AddExprs entry.2
  else
    entry.2.foldl
      (fun racc2 e =>
        if toInt8 (racc2.GroupMatches e.EvaluableID e.GroupID) <
            toInt8 e.GroupID.Flag then racc2
        else racc2.AddExprs [e])
      racc

/-- `stringLookup.inequalitySearch`: if the field path has no inequality
entries, return unchanged.  Otherwise iterate every (hash, bucket) pair
for the path with `ineqStep`, skipping the bucket whose hash equals the
hash of `input`; without the `neqOptimized` signal every remaining stored
part is added; with it, a part is added only when the result's current
match count for its (EvaluableID, GroupID) is at least its group's flag
threshold. -/
def stringLookup.inequalitySearch (n : stringLookup) (v : String)
    (input : String) (neqOptimized : Bool) (result : MatchResult) :
    MatchResult :=
  match alookup n.inequality v with
  | none => result
  | some vm =>
    if vm.length = 0 then result
    else vm.foldl (ineqStep (hash input) neqOptimized) result

/-- `stringLookup.Search`: equality-only single-field lookup; a non-string
input is ignored. -/
def stringLookup.Search (n : stringLookup) (v : String) (input : JValue)
    (result : MatchResult) : MatchResult :=
  match input with
  | JValue.str s => (n.equalitySearch v s result).1
  | JValue.other => result

/-- `stringLookup.Match`: phase 1 runs `equalitySearch` for every observed
variable, accumulating the `neqOptimized` signal; phase 2 runs
`inequalitySearch` for every field path of the inequality index with the
signal produced by phase 1.  The concurrent pools are modelled
sequentially; phase 2 starts only after phase 1 completes, as enforced by
`pool.Wait()`. -/
def stringLookup.Match (n : stringLookup) (input : Event)
    (result : MatchResult) : MatchResult :=
  let phase1 := n.vars.foldl
    (fun acc path =>
      let str := extractString input path
      let out := n.equalitySearch path str acc.1
      (out.1, acc.2 || out.2))
    (result, false)
  (n.inequality.map Prod.fst).foldl
    (fun racc path =>
      let str := extractString input path
      n.inequalitySearch path str phase1.2 racc)
    phase1.1

/-! ### Registration -/

/-- `stringLookup.Add`: register a part.  The pair returned is the state
after the call together with the error, mirroring the in-place mutation of
the Go receiver; the Go code mutates nothing before returning an error. -/
def stringLookup.Add (n : stringLookup) (p : ExpressionPart) :
    stringLookup × Option EngineErr :=
  match p.Predicate.Operator with
  | Op.equals =>
    let val := hash p.Predicate.LiteralAsString
    let n1 : stringLookup :=
      { n with vars := varsInsert n.vars p.Predicate.Ident }
    match alookup n1.equality val with
    | none =>
        ({ n1 with equality := aset n1.equality val [p.ToStored] }, none)
    | some coll =>
        ({ n1 with equality := aset n1.equality val (coll ++ [p.ToStored]) },
          none)
  | Op.notEquals =>
    let val := hash p.Predicate.LiteralAsString
    match alookup n.inequality p.Predicate.Ident with
    | none =>
        let ineq2 := aset n.inequality p.Predicate.Ident [(val, [p.ToStored])]
        ({ n with inequality := ineq2 }, none)
    | some vm =>
        let bucket := (alookup vm val).getD []
        let ineq2 := aset n.inequality p.Predicate.Ident
          (aset vm val (bucket ++ [p.ToStored]))
        ({ n with inequality := ineq2 }, none)
  | Op.other => (n, some EngineErr.unsupportedOperator)

/-- Splice out the first stored part matching `p` under the
storage-equality contract; `none` when no element matches. -/
def removeStored (p : ExpressionPart) :
    List StoredExpressionPart → Option (List StoredExpressionPart)
  | [] => none
  | e :: rest =>
      if p.EqualsStored e then some rest
      else (removeStored p rest).map (fun r => e :: r)

/-- `stringLookup.Remove`: deregister a part, as `Add` returning the
post-state and the error. -/
def stringLookup.Remove (n : stringLookup) (p : ExpressionPart) :
    stringLookup × Option EngineErr :=
  match p.Predicate.Operator with
  | Op.equals =>
    let val := hash p.Predicate.LiteralAsString
    match alookup n.equality val with
    | none => (n, some EngineErr.partNotFound)
    | some coll =>
      match removeStored p coll with
      | some coll2 => ({ n with equality := aset n.equality val coll2 }, none)
      | none => (n, some EngineErr.partNotFound)
  | Op.notEquals =>
    let val := hash p.Predicate.LiteralAsString
    match alookup n.inequality p.Predicate.Ident with
    | none => (n, some EngineErr.partNotFound)
    | some vm =>
      match alookup vm val with
      | none => (n, none)
      | some bucket =>
        match removeStored p bucket with
        | some b2 =>
            let ineq2 := aset n.inequality p.Predicate.Ident (aset vm val b2)
            ({ n with inequality := ineq2 }, none)
        | none => (n, some EngineErr.partNotFound)
  | Op.other => (n, some EngineErr.unsupportedOperator)

/-- Engine states reachable from the fresh engine by `Add` and `Remove`
calls (errors leave the state as the call returns it). -/
inductive Reachable : stringLookup → Prop
  | init : Reachable newStringEqualityMatcher
  | add (p : ExpressionPart) {n : stringLookup} :
      Reachable n → Reachable (n.Add p).1
  | remove (p : ExpressionPart) {n : stringLookup} :
      Reachable n → Reachable (n.Remove p).1

/-! ### Concrete fixtures -/

/-- Group with identity 1 and no optimization flag. -/
def g1 : GroupID := { gid := 1, flag := 0 }

/-- Group with identity 2 and no optimization flag. -/
def g2 : GroupID := { gid := 2, flag := 0 }

/-- Group with identity 3 and flag threshold 1. -/
def g3 : GroupID := { gid := 3, flag := 1 }

/-- `status == "active"` owned by evaluable 1, group `g1`. -/
def pEq : ExpressionPart :=
  { GroupID := g1, EvaluableID := 1,
    Predicate :=
      { Operator := Op.equals, Ident := "status", Literal := "active" } }

/-- `status != "inactive"` owned by evaluable 2, group `g2`. -/
def pNeq : ExpressionPart :=
  { GroupID := g2, EvaluableID := 2,
    Predicate :=
      { Operator := Op.notEquals, Ident := "status", Literal := "inactive" } }

/-- `status != "inactive"` owned by evaluable 3, in the flagged group
`g3`. -/
def pNeqFlag : ExpressionPart :=
  { GroupID := g3, EvaluableID := 3,
    Predicate :=
      { Operator := Op.notEquals, Ident := "status", Literal := "inactive" } }

/-- A part with an operator the engine does not support. -/
def pOther : ExpressionPart :=
  { GroupID := g1, EvaluableID := 4,
    Predicate :=
      { Operator := Op.other, Ident := "status", Literal := "active" } }

/-- Event whose `status` field extracts to the string `"active"`. -/
def evActive : Event :=
  fun path => if path = "status" then [JValue.str "active"] else []

/-- Event whose `status` field extracts to the string `"inactive"`. -/
def evInactive : Event :=
  fun path => if path = "status" then [JValue.str "inactive"] else []

/-- Event whose `status` field extracts to a non-string value. -/
def evNonString : Event :=
  fun path => if path = "status" then [JValue.other] else []

/-- Event with no extractable fields at all. -/
def evEmpty : Event := fun _ => []

/-! ### Claim predicates -/

/-- The invariant claimed for the observed field-path set: `vars` holds
exactly the distinct identifiers of the parts currently stored in the
equality index's buckets. -/
def varsEqualsStoredIdents (n : stringLookup) : Prop :=
  ∀ x : String, x ∈ n.vars ↔
    ∃ pr ∈ n.equality, ∃ sp ∈ pr.2, sp.PredicateID.Ident = x

/-- One direction of the above: every stored equality part's identifier
belongs to `vars`. -/
def VarsSup (n : stringLookup) : Prop :=
  ∀ pr ∈ n.equality, ∀ sp ∈ pr.2, sp.PredicateID.Ident ∈ n.vars

/-- No equality bucket and no (path, hash) inequality bucket holds two
stored parts equal under the storage-equality contract. -/
def BucketsNodup (n : stringLookup) : Prop :=
  (∀ pr ∈ n.equality, pr.2.Nodup) ∧
  (∀ pr ∈ n.inequality, ∀ qr ∈ pr.2, qr.2.Nodup)

/-- Every part stored in any bucket belongs to the given list. -/
def BucketsInSeen (seen : List StoredExpressionPart) (n : stringLookup) :
    Prop :=
  (∀ pr ∈ n.equality, ∀ sp ∈ pr.2, sp ∈ seen) ∧
  (∀ pr ∈ n.inequality, ∀ qr ∈ pr.2, ∀ sp ∈ qr.2, sp ∈ seen)

/-- Reachability annotated with the stored forms of all parts ever passed
to `Add`; the `add` step requires the new part's stored form to differ
from every earlier one. -/
inductive ReachableDistinct :
    List StoredExpressionPart → stringLookup → Prop
  | init : ReachableDistinct [] newStringEqualityMatcher
  | add (p : ExpressionPart) {seen : List StoredExpressionPart}
      {n : stringLookup} : ReachableDistinct seen n → p.ToStored ∉ seen →
      ReachableDistinct (p.ToStored :: seen) (n.Add p).1
  | remove (p : ExpressionPart) {seen : List StoredExpressionPart}
      {n : stringLookup} : ReachableDistinct seen n →
      ReachableDistinct seen (n.Remove p).1

/-- The engine state holding exactly one equality part. -/
def singleEqState (p : ExpressionPart) : stringLookup :=
  { vars := [p.Predicate.Ident],
    equality := [(hash p.Predicate.Literal, [p.ToStored])],
    inequality := [] }

/-- The engine state holding exactly one inequality part. -/
def singleNeqState (p : ExpressionPart) : stringLookup :=
  { vars := [],
    equality := [],
    inequality :=
      [(p.Predicate.Ident, [(hash p.Predicate.Literal, [p.ToStored])])] }

/-! ### Sanity checks -/

example : hash "" = "3mzsru4d4ty1l" := by decide
example : hash "active" = "1kgkjl5280npu" := by decide
example : hash "xxxxxxxxxxxxxxxxxxxxxxxxxxxxxxxxxxxxxxxx" = "2860q9fa25yol" := by
  decide

example :
    (((newStringEqualityMatcher.Add pEq).1.Add pNeq).1.Match evActive
        MatchResult.empty).GroupMatches 1 g1 = 1 := by decide

example :
    (((newStringEqualityMatcher.Add pEq).1.Add pNeq).1.Match evActive
        MatchResult.empty).GroupMatches 2 g2 = 1 := by decide

example :
    ((newStringEqualityMatcher.Add pEq).1.Add pNeq).1.Match evInactive
        MatchResult.empty = MatchResult.empty := by decide

/-! ### Helper lemmas -/

theorem alookup_aset_self {α : Type} (m : List (String × α)) (k : String)
    (v : α) : alookup (aset m k v) k = some v := by
  induction m with
  | nil => simp [aset, alookup]
  | cons hd tl ih =>
    obtain ⟨k', v'⟩ := hd
    by_cases h : k' = k
    · simp [aset, alookup, h]
    · simp [aset, alookup, h, ih]

theorem alookup_aset_ne {α : Type} (m : List (String × α)) {k k2 : String}
    (v : α) (h : k2 ≠ k) : alookup (aset m k v) k2 = alookup m k2 := by
  induction m with
  | nil => simp [aset, alookup, Ne.symm h]
  | cons hd tl ih =>
    obtain ⟨k', v'⟩ := hd
    by_cases hk : k' = k
    · subst hk
      simp [aset, alookup, Ne.symm h]
    · simp [aset, alookup, hk, ih]

theorem mem_aset {α : Type} {m : List (String × α)} {k : String} {v : α}
    {pr : String × α} (h : pr ∈ aset m k v) : pr = (k, v) ∨ pr ∈ m := by
  induction m with
  | nil => simpa [aset] using h
  | cons hd tl ih =>
    obtain ⟨k', v'⟩ := hd
    by_cases hk : k' = k
    · simp only [aset, if_pos hk, List.mem_cons] at h
      rcases h with h | h
      · exact Or.inl h
      · exact Or.inr (List.mem_cons_of_mem _ h)
    · simp only [aset, if_neg hk, List.mem_cons] at h
      rcases h with h | h
      · exact Or.inr (by simp [h])
      · rcases ih h with h2 | h2
        · exact Or.inl h2
        · exact Or.inr (List.mem_cons_of_mem _ h2)

theorem alookup_mem {α : Type} {m : List (String × α)} {k : String} {v : α}
    (h : alookup m k = some v) : (k, v) ∈ m := by
  induction m with
  | nil => simp [alookup] at h
  | cons hd tl ih =>
    obtain ⟨k', v'⟩ := hd
    by_cases hk : k' = k
    · simp only [alookup, if_pos hk] at h
      have hv : v' = v := by injection h
      subst hk
      subst hv
      exact List.mem_cons_self _ _
    · simp only [alookup, if_neg hk] at h
      exact List.mem_cons_of_mem _ (ih h)

theorem removeStored_sublist {p : ExpressionPart} :
    ∀ {l l2 : List StoredExpressionPart}, removeStored p l = some l2 →
      l2.Sublist l := by
  intro l
  induction l with
  | nil => intro l2 h; simp [removeStored] at h
  | cons e rest ih =>
    intro l2 h
    by_cases he : p.EqualsStored e
    · simp only [removeStored, if_pos he, Option.some.injEq] at h
      exact h ▸ List.sublist_cons_self e rest
    · simp only [removeStored, if_neg he, Option.map_eq_some'] at h
      obtain ⟨r2, hr2, hl2⟩ := h
      exact hl2 ▸ List.Sublist.cons₂ e (ih hr2)

/-- The state after adding a single equality part to the fresh engine. -/
theorem add_eq_empty (p : ExpressionPart)
    (hop : p.Predicate.Operator = Op.equals) :
    (newStringEqualityMatcher.Add p).1 = singleEqState p := by
  simp [stringLookup.Add, newStringEqualityMatcher, hop, alookup, aset,
    varsInsert, Predicate.LiteralAsString, singleEqState]

/-- The state after adding a single inequality part to the fresh engine. -/
theorem add_neq_empty (p : ExpressionPart)
    (hop : p.Predicate.Operator = Op.notEquals) :
    (newStringEqualityMatcher.Add p).1 = singleNeqState p := by
  simp [stringLookup.Add, newStringEqualityMatcher, hop, alookup, aset,
    Predicate.LiteralAsString, singleNeqState]

/-- Adding one hit for a pair raises that pair's count by one. -/
theorem groupMatches_add_self (r : MatchResult) (e : Nat) (g : GroupID) :
    (r.Add e g).GroupMatches e g = r.GroupMatches e g + 1 := by
  simp [MatchResult.Add, MatchResult.GroupMatches, countHits, Nat.add_comm]

/-- On the single-equality-part engine, `equalitySearch` raises the part's
pair count by one exactly when the searched value's hash equals the
literal's hash, whatever field path is searched under. -/
theorem equalitySearch_single_count (p : ExpressionPart) (v s : String)
    (r : MatchResult) :
    ((singleEqState p).equalitySearch v s r).1.GroupMatches
        p.EvaluableID p.GroupID =
      r.GroupMatches p.EvaluableID p.GroupID +
        (if hash s = hash p.Predicate.Literal then 1 else 0) := by
  by_cases hc : hash s = hash p.Predicate.Literal
  · simp [singleEqState, stringLookup.equalitySearch, alookup, hc,
      ExpressionPart.ToStored, groupMatches_add_self]
  · have hc2 : ¬hash p.Predicate.Literal = hash s := fun h => hc h.symm
    simp [singleEqState, stringLookup.equalitySearch, alookup, hc2, hc]

/-- On the single-equality-part engine, `Match` is exactly the equality
phase on the part's field path. -/
theorem match_single_eq (p : ExpressionPart) (ev : Event) (r : MatchResult) :
    (singleEqState p).Match ev r =
      ((singleEqState p).equalitySearch p.Predicate.Ident
        (extractString ev p.Predicate.Ident) r).1 := by
  simp [singleEqState, stringLookup.Match]

/-- **C1**: Equality matching is exact up to hashing.  With one equality
predicate registered (its stored form declares no identifier, hence
matches any searched path), `Match` reports the predicate's
(EvaluableID, GroupID) iff the hash of the event's extracted field value
equals the hash of the literal, and the equality phase `equalitySearch`
reports it iff the hash of the searched value equals the hash of the
literal: a predicate on a literal is never reported for a value with a
distinct hash, and is always reported for a value with an equal hash. -/
theorem C1_equality_exact_up_to_hashing (p : ExpressionPart)
    (hop : p.Predicate.Operator = Op.equals) (ev : Event) (v s : String) :
    (0 < ((newStringEqualityMatcher.Add p).1.Match ev
        MatchResult.empty).GroupMatches p.EvaluableID p.GroupID ↔
      hash (extractString ev p.Predicate.Ident) =
        hash p.Predicate.LiteralAsString) ∧
    (0 < (((newStringEqualityMatcher.Add p).1.equalitySearch v s
        MatchResult.empty).1.GroupMatches p.EvaluableID p.GroupID) ↔
      hash s = hash p.Predicate.LiteralAsString) := by
  have hstate : (newStringEqualityMatcher.Add p).1 = singleEqState p :=
    add_eq_empty p hop
  rw [hstate]
  constructor
  · rw [match_single_eq, equalitySearch_single_count]
    by_cases hc : hash (extractString ev p.Predicate.Ident) =
        hash p.Predicate.Literal
    · simp [hc, Predicate.LiteralAsString]
    · simp [hc, Predicate.LiteralAsString, MatchResult.GroupMatches,
        MatchResult.empty, countHits]
  · rw [equalitySearch_single_count]
    by_cases hc : hash s = hash p.Predicate.Literal
    · simp [hc, Predicate.LiteralAsString]
    · simp [hc, Predicate.LiteralAsString, MatchResult.GroupMatches,
        MatchResult.empty, countHits]

/-- C1 at a concrete input: `status == "active"` matched against the
event `{status: "active"}` is reported. -/
theorem C1_equality_exact_up_to_hashing_witness :
    0 < ((newStringEqualityMatcher.Add pEq).1.Match evActive
        MatchResult.empty).GroupMatches 1 g1 :=
  (C1_equality_exact_up_to_hashing pEq rfl evActive "b" "x").1.mpr (by decide)

set_option maxRecDepth 10000 in
/-- **C2 counterexample**: the claim's "reported whenever the count is at
least K" direction fails on the code because the threshold comparison
runs through Go's `int8` casts.  With `status != "inactive"` registered
in a group of flag 1 and an accumulator already holding 200 hits for its
(EvaluableID, GroupID) — a count of at least K = 1 — the program computes
`int8(200) = -56 < int8(1)` and suppresses the otherwise-true inequality
hit for the event value `"active"`. -/
theorem C2_flagged_inequality_threshold_counterexample :
    pNeqFlag.ToStored.GroupID.Flag ≤
      (MatchResult.mk (List.replicate 200 (3, g3))).GroupMatches 3 g3 ∧
    (newStringEqualityMatcher.Add pNeqFlag).1.inequalitySearch "status"
        "active" true (MatchResult.mk (List.replicate 200 (3, g3))) =
      MatchResult.mk (List.replicate 200 (3, g3)) ∧
    MatchResult.mk (List.replicate 200 (3, g3)) ≠
      MatchResult.AddExprs (MatchResult.mk (List.replicate 200 (3, g3)))
        [pNeqFlag.ToStored] := by
  refine ⟨by decide, by decide, by decide⟩

/-- **C2 amended**: For a group whose optimize flag requires K equality
matches (flag K > `OptimizeNone`), an otherwise-true inequality hit (the
stored hash differs from the event value's hash) during the optimized
inequality phase is suppressed when `int8(count) < int8(K)` for the
accumulator's current match count of the part's (EvaluableID, GroupID),
and is reported when `int8(count) ≥ int8(K)` — the comparison the claim
states, but through the program's `int8` casts, which wrap once the
count or the flag reaches 128; below 128 this coincides with the claimed
`count < K` / `count ≥ K`. -/
theorem C2_flagged_inequality_threshold (n : stringLookup)
    (sp : StoredExpressionPart) (v s h : String) (r : MatchResult)
    (hflag : OptimizeNone < sp.GroupID.Flag)
    (hne : h ≠ hash s)
    (hidx : alookup n.inequality v = some [(h, [sp])]) :
    (toInt8 (r.GroupMatches sp.EvaluableID sp.GroupID) <
        toInt8 sp.GroupID.Flag →
      n.inequalitySearch v s true r = r) ∧
    (toInt8 sp.GroupID.Flag ≤
        toInt8 (r.GroupMatches sp.EvaluableID sp.GroupID) →
      n.inequalitySearch v s true r = r.AddExprs [sp]) := by
  constructor
  · intro hc
    simp [stringLookup.inequalitySearch, ineqStep, hidx, hne, hc]
  · intro hc
    simp [stringLookup.inequalitySearch, ineqStep, hidx, hne,
      Int.not_lt.mpr hc]

/-- C2 amended, at a concrete input: with one prior hit recorded for the
flagged group (threshold 1), the inequality hit for
`status != "inactive"` on the event value `"active"` is reported. -/
theorem C2_flagged_inequality_threshold_witness :
    (newStringEqualityMatcher.Add pNeqFlag).1.inequalitySearch "status"
        "active" true ⟨[(3, g3)]⟩ =
      MatchResult.AddExprs ⟨[(3, g3)]⟩ [pNeqFlag.ToStored] :=
  (C2_flagged_inequality_threshold (newStringEqualityMatcher.Add pNeqFlag).1
    pNeqFlag.ToStored "status" "active" (hash "inactive") ⟨[(3, g3)]⟩
    (by decide) (by decide) (by decide)).2 (by decide)

/-- **C3**: `Search` ignores identifier mismatches: a registered equality
part whose literal's hash equals the hash of the searched string value
records a hit even though the part's declared identifier differs from the
searched field name. -/
theorem C3_search_ignores_identifier (p : ExpressionPart)
    (hop : p.Predicate.Operator = Op.equals) (fieldName : String)
    (hdiff : fieldName ≠ p.Predicate.Ident) (s : String)
    (hhash : hash s = hash p.Predicate.LiteralAsString) (r : MatchResult) :
    ((newStringEqualityMatcher.Add p).1.Search fieldName (JValue.str s)
        r).GroupMatches p.EvaluableID p.GroupID =
      r.GroupMatches p.EvaluableID p.GroupID + 1 := by
  rw [add_eq_empty p hop]
  simp only [stringLookup.Search]
  rw [equalitySearch_single_count]
  simp only [Predicate.LiteralAsString] at hhash
  simp [hhash]

/-- C3 at a concrete input: `status == "active"` is still returned when
searching under the unrelated field name `"other"` with the value
`"active"`. -/
theorem C3_search_ignores_identifier_witness :
    ((newStringEqualityMatcher.Add pEq).1.Search "other"
        (JValue.str "active") MatchResult.empty).GroupMatches 1 g1 =
      MatchResult.empty.GroupMatches 1 g1 + 1 :=
  C3_search_ignores_identifier pEq rfl "other" (by decide) "active"
    (by decide) MatchResult.empty

/-- **C4**: The inequality phase skips the entire bucket whose stored hash
equals the hash of the event's extracted value: deleting that bucket from
the index leaves `inequalitySearch`'s outcome unchanged, so no predicate
whose literal hash equals the event's computed hash is ever recorded. -/
theorem C4_equal_hash_bucket_skipped (n n2 : stringLookup) (v s : String)
    (neq : Bool) (r : MatchResult) (pre post : variableMap)
    (bucket : List StoredExpressionPart)
    (hidx : alookup n.inequality v = some (pre ++ (hash s, bucket) :: post))
    (hidx2 : alookup n2.inequality v = some (pre ++ post)) :
    n.inequalitySearch v s neq r = n2.inequalitySearch v s neq r := by
  simp only [stringLookup.inequalitySearch, hidx, hidx2]
  by_cases hpp : pre ++ post = []
  · obtain ⟨hpre, hpost⟩ := List.append_eq_nil.mp hpp
    subst hpre
    subst hpost
    simp [ineqStep]
  · have h1 : ¬(pre ++ (hash s, bucket) :: post).length = 0 := by simp
    have h2 : ¬(pre ++ post).length = 0 := fun h =>
      hpp (List.length_eq_zero.mp h)
    rw [if_neg h1, if_neg h2, List.foldl_append, List.foldl_append,
      List.foldl_cons]
    have hskip : ineqStep (hash s) neq (List.foldl (ineqStep (hash s) neq) r
        pre) (hash s, bucket) = List.foldl (ineqStep (hash s) neq) r pre := by
      simp [ineqStep]
    rw [hskip]

/-- C4 at a concrete input: with only `status != "inactive"` registered,
matching the value `"inactive"` records nothing, exactly as if the
bucket were not there. -/
theorem C4_equal_hash_bucket_skipped_witness :
    (newStringEqualityMatcher.Add pNeq).1.inequalitySearch "status"
        "inactive" false MatchResult.empty =
      stringLookup.inequalitySearch
        { vars := [], equality := [], inequality := [("status", [])] }
        "status" "inactive" false MatchResult.empty :=
  C4_equal_hash_bucket_skipped (newStringEqualityMatcher.Add pNeq).1
    { vars := [], equality := [], inequality := [("status", [])] }
    "status" "inactive" false MatchResult.empty [] []
    [pNeq.ToStored] (by decide) (by decide)

/-- **C5**: Remove is asymmetric between operators.  Removing an
inequality part whose field path exists in the inequality index but whose
literal's hash bucket is absent succeeds without changing the state,
while removing an equality part whose literal's hash bucket is absent
from the equality index fails with `partNotFound`. -/
theorem C5_remove_asymmetry (n : stringLookup) (p q : ExpressionPart)
    (vm : variableMap)
    (hp : p.Predicate.Operator = Op.notEquals)
    (hq : q.Predicate.Operator = Op.equals)
    (hvm : alookup n.inequality p.Predicate.Ident = some vm)
    (hbucket : alookup vm (hash p.Predicate.LiteralAsString) = none)
    (heq : alookup n.equality (hash q.Predicate.LiteralAsString) = none) :
    n.Remove p = (n, none) ∧
    n.Remove q = (n, some EngineErr.partNotFound) := by
  constructor
  · simp [stringLookup.Remove, hp, hvm, hbucket]
  · simp [stringLookup.Remove, hq, heq]

/-- C5 at a concrete input: with `status != "inactive"` registered, the
path `status` exists, so removing `status != "missing"` is a silent
success, while removing `status == "missing"` is `partNotFound`. -/
theorem C5_remove_asymmetry_witness :
    (newStringEqualityMatcher.Add pNeq).1.Remove
        { GroupID := g2, EvaluableID := 5,
          Predicate := { Operator := Op.notEquals, Ident := "status",
                         Literal := "missing" } } =
      ((newStringEqualityMatcher.Add pNeq).1, none) ∧
    (newStringEqualityMatcher.Add pNeq).1.Remove
        { GroupID := g1, EvaluableID := 6,
          Predicate := { Operator := Op.equals, Ident := "status",
                         Literal := "missing" } } =
      ((newStringEqualityMatcher.Add pNeq).1, some EngineErr.partNotFound) :=
  C5_remove_asymmetry (newStringEqualityMatcher.Add pNeq).1
    { GroupID := g2, EvaluableID := 5,
      Predicate := { Operator := Op.notEquals, Ident := "status",
                     Literal := "missing" } }
    { GroupID := g1, EvaluableID := 6,
      Predicate := { Operator := Op.equals, Ident := "status",
                     Literal := "missing" } }
    [(hash "inactive", [pNeq.ToStored])]
    rfl rfl (by decide) (by decide) (by decide)

/-- **C9**: `Add` and `Remove` are atomic on error: whenever either
returns an error, the returned state is exactly the state before the
call. -/
theorem C9_atomic_on_error (n : stringLookup) (p : ExpressionPart)
    (e : EngineErr) :
    ((n.Add p).2 = some e → (n.Add p).1 = n) ∧
    ((n.Remove p).2 = some e → (n.Remove p).1 = n) := by
  constructor
  · intro h
    rcases hop : p.Predicate.Operator with _ | _ | _
    · rcases halk : alookup n.equality (hash p.Predicate.LiteralAsString)
          with _ | coll
      · simp [stringLookup.Add, hop, halk] at h
      · simp [stringLookup.Add, hop, halk] at h
    · rcases halk : alookup n.inequality p.Predicate.Ident with _ | vm
      · simp [stringLookup.Add, hop, halk] at h
      · simp [stringLookup.Add, hop, halk] at h
    · simp [stringLookup.Add, hop]
  · intro h
    rcases hop : p.Predicate.Operator with _ | _ | _
    · rcases halk : alookup n.equality (hash p.Predicate.LiteralAsString)
          with _ | coll
      · simp [stringLookup.Remove, hop, halk]
      · rcases hrm : removeStored p coll with _ | coll2
        · simp [stringLookup.Remove, hop, halk, hrm]
        · simp [stringLookup.Remove, hop, halk, hrm] at h
    · rcases halk : alookup n.inequality p.Predicate.Ident with _ | vm
      · simp [stringLookup.Remove, hop, halk]
      · rcases hb : alookup vm (hash p.Predicate.LiteralAsString)
            with _ | bucket
        · simp [stringLookup.Remove, hop, halk, hb] at h
        · rcases hrm : removeStored p bucket with _ | b2
          · simp [stringLookup.Remove, hop, halk, hb, hrm]
          · simp [stringLookup.Remove, hop, halk, hb, hrm] at h
    · simp [stringLookup.Remove, hop]

/-- C9 at a concrete input: adding a part with an unsupported operator
fails and returns the engine unchanged. -/
theorem C9_atomic_on_error_witness :
    (newStringEqualityMatcher.Add pOther).1 = newStringEqualityMatcher :=
  (C9_atomic_on_error newStringEqualityMatcher pOther
    EngineErr.unsupportedOperator).1 (by decide)

/-- **C6**: On the fresh engine, removing a part (with an equality or
inequality operator) that was never added returns `partNotFound`; after
adding the part, the first `Remove` succeeds and a second `Remove` of the
same part returns `partNotFound` again. -/
theorem C6_remove_never_added (p : ExpressionPart)
    (hop : p.Predicate.Operator = Op.equals ∨
      p.Predicate.Operator = Op.notEquals) :
    (newStringEqualityMatcher.Remove p).2 = some EngineErr.partNotFound ∧
    ((newStringEqualityMatcher.Add p).1.Remove p).2 = none ∧
    (((newStringEqualityMatcher.Add p).1.Remove p).1.Remove p).2 =
      some EngineErr.partNotFound := by
  rcases hop with hop | hop
  · rw [add_eq_empty p hop]
    refine ⟨?_, ?_, ?_⟩
    · simp [stringLookup.Remove, hop, newStringEqualityMatcher, alookup]
    · simp [stringLookup.Remove, hop, singleEqState, alookup, aset,
        removeStored, ExpressionPart.EqualsStored, Predicate.LiteralAsString]
    · simp [stringLookup.Remove, hop, singleEqState, alookup, aset,
        removeStored, ExpressionPart.EqualsStored, Predicate.LiteralAsString]
  · rw [add_neq_empty p hop]
    refine ⟨?_, ?_, ?_⟩
    · simp [stringLookup.Remove, hop, newStringEqualityMatcher, alookup]
    · simp [stringLookup.Remove, hop, singleNeqState, alookup, aset,
        removeStored, ExpressionPart.EqualsStored, Predicate.LiteralAsString]
    · simp [stringLookup.Remove, hop, singleNeqState, alookup, aset,
        removeStored, ExpressionPart.EqualsStored, Predicate.LiteralAsString]

/-- C6 at a concrete input: the `status == "active"` part. -/
theorem C6_remove_never_added_witness :
    (newStringEqualityMatcher.Remove pEq).2 = some EngineErr.partNotFound ∧
    ((newStringEqualityMatcher.Add pEq).1.Remove pEq).2 = none ∧
    (((newStringEqualityMatcher.Add pEq).1.Remove pEq).1.Remove pEq).2 =
      some EngineErr.partNotFound :=
  C6_remove_never_added pEq (Or.inl rfl)

/-- **C10**: In both phases of `Match`, a field path whose extraction
yields no value or a non-string value is treated as the empty string: the
extracted value is `""`, an equality predicate whose literal hashes like
`""` is reported for such an event, and the inequality bucket whose hash
equals the hash of `""` is excluded for that field. -/
theorem C10_missing_or_nonstring_is_empty (ev : Event) (v : String)
    (hext : ev v = [] ∨ ∃ t, ev v = JValue.other :: t) :
    extractString ev v = "" ∧
    (∀ p r, p.Predicate.Operator = Op.equals → p.Predicate.Ident = v →
      hash p.Predicate.LiteralAsString = hash "" →
      ((newStringEqualityMatcher.Add p).1.Match ev r).GroupMatches
          p.EvaluableID p.GroupID =
        r.GroupMatches p.EvaluableID p.GroupID + 1) ∧
    (∀ p r, p.Predicate.Operator = Op.notEquals → p.Predicate.Ident = v →
      hash p.Predicate.LiteralAsString = hash "" →
      (newStringEqualityMatcher.Add p).1.Match ev r = r) := by
  have hemp : extractString ev v = "" := by
    rcases hext with h | ⟨t, h⟩ <;> simp [extractString, h]
  refine ⟨hemp, ?_, ?_⟩
  · intro p r hop hid hlit
    rw [add_eq_empty p hop, match_single_eq, equalitySearch_single_count,
      hid, hemp]
    simp only [Predicate.LiteralAsString] at hlit
    rw [hlit]
    simp
  · intro p r hop hid hlit
    simp only [Predicate.LiteralAsString] at hlit
    rw [add_neq_empty p hop]
    simp [singleNeqState, stringLookup.Match, stringLookup.inequalitySearch,
      alookup, ineqStep, hid, hemp, hlit]

/-- C10 at a concrete input: an event with no extractable fields matches
the predicate `status == ""`. -/
theorem C10_missing_or_nonstring_is_empty_witness :
    ((newStringEqualityMatcher.Add
        { GroupID := g1, EvaluableID := 7,
          Predicate := { Operator := Op.equals, Ident := "status",
                         Literal := "" } }).1.Match evEmpty
        MatchResult.empty).GroupMatches 7 g1 =
      MatchResult.empty.GroupMatches 7 g1 + 1 :=
  (C10_missing_or_nonstring_is_empty evEmpty "status" (Or.inl rfl)).2.1
    { GroupID := g1, EvaluableID := 7,
      Predicate := { Operator := Op.equals, Ident := "status",
                     Literal := "" } }
    MatchResult.empty rfl rfl rfl

theorem mem_varsInsert_self (vs : List String) (x : String) :
    x ∈ varsInsert vs x := by
  by_cases h : x ∈ vs <;> simp [varsInsert, h]

theorem mem_varsInsert_of_mem {vs : List String} {y : String} (x : String)
    (h : y ∈ vs) : y ∈ varsInsert vs x := by
  by_cases hx : x ∈ vs <;> simp [varsInsert, hx, h]

/-- Unified shape of the state after an equality `Add`: the identifier
joins `vars` and the stored part is appended to its hash's bucket. -/
theorem add_eq_state (n : stringLookup) (p : ExpressionPart)
    (hop : p.Predicate.Operator = Op.equals) :
    (n.Add p).1 =
      { n with
        vars := varsInsert n.vars p.Predicate.Ident,
        equality := aset n.equality (hash p.Predicate.Literal)
          ((alookup n.equality (hash p.Predicate.Literal)).getD [] ++
            [p.ToStored]) } := by
  rcases halk : alookup n.equality (hash p.Predicate.Literal) with _ | coll
  · simp [stringLookup.Add, hop, Predicate.LiteralAsString, halk]
  · simp [stringLookup.Add, hop, Predicate.LiteralAsString, halk]

/-- Unified shape of the state after an inequality `Add`: the stored part
is appended to the nested (path, hash) bucket. -/
theorem add_neq_state (n : stringLookup) (p : ExpressionPart)
    (hop : p.Predicate.Operator = Op.notEquals) :
    (n.Add p).1 =
      { n with
        inequality := aset n.inequality p.Predicate.Ident
          (aset ((alookup n.inequality p.Predicate.Ident).getD [])
            (hash p.Predicate.Literal)
            ((alookup ((alookup n.inequality p.Predicate.Ident).getD [])
              (hash p.Predicate.Literal)).getD [] ++ [p.ToStored])) } := by
  rcases halk : alookup n.inequality p.Predicate.Ident with _ | vm
  · simp [stringLookup.Add, hop, Predicate.LiteralAsString, halk, alookup,
      aset]
  · simp [stringLookup.Add, hop, Predicate.LiteralAsString, halk]

/-- An equality `Add` preserves the vars-superset invariant. -/
theorem varsSup_add (n : stringLookup) (p : ExpressionPart)
    (h : VarsSup n) : VarsSup (n.Add p).1 := by
  rcases hop : p.Predicate.Operator with _ | _ | _
  · rw [add_eq_state n p hop]
    intro pr hpr sp hsp
    rcases mem_aset hpr with hnew | hold
    · rcases List.mem_append.mp (hnew ▸ hsp) with hmem | hmem
      · rcases halk : alookup n.equality (hash p.Predicate.Literal)
            with _ | coll
        · rw [halk] at hmem
          simp at hmem
        · rw [halk] at hmem
          exact mem_varsInsert_of_mem _
            (h _ (alookup_mem halk) sp hmem)
      · have hsp0 : sp = p.ToStored := by simpa using hmem
        subst hsp0
        simpa [ExpressionPart.ToStored] using
          mem_varsInsert_self n.vars p.Predicate.Ident
    · exact mem_varsInsert_of_mem _ (h pr hold sp hsp)
  · rw [add_neq_state n p hop]
    intro pr hpr sp hsp
    exact h pr hpr sp hsp
  · have hst : (n.Add p).1 = n := by simp [stringLookup.Add, hop]
    rw [hst]
    exact h

/-- Any `Remove` preserves the vars-superset invariant. -/
theorem varsSup_remove (n : stringLookup) (p : ExpressionPart)
    (h : VarsSup n) : VarsSup (n.Remove p).1 := by
  rcases hop : p.Predicate.Operator with _ | _ | _
  · rcases halk : alookup n.equality (hash p.Predicate.LiteralAsString)
        with _ | coll
    · have hst : (n.Remove p).1 = n := by
        simp [stringLookup.Remove, hop, halk]
      rw [hst]; exact h
    · rcases hrm : removeStored p coll with _ | coll2
      · have hst : (n.Remove p).1 = n := by
          simp [stringLookup.Remove, hop, halk, hrm]
        rw [hst]; exact h
      · have hst : (n.Remove p).1 = { n with
            equality := aset n.equality (hash p.Predicate.LiteralAsString)
              coll2 } := by
          simp [stringLookup.Remove, hop, halk, hrm]
        rw [hst]
        intro pr hpr sp hsp
        rcases mem_aset hpr with hnew | hold
        · subst hnew
          have hsub := (removeStored_sublist hrm).subset
          exact h _ (alookup_mem halk) sp (hsub hsp)
        · exact h pr hold sp hsp
  · rcases halk : alookup n.inequality p.Predicate.Ident with _ | vm
    · have hst : (n.Remove p).1 = n := by
        simp [stringLookup.Remove, hop, halk]
      rw [hst]; exact h
    · rcases hb : alookup vm (hash p.Predicate.LiteralAsString)
          with _ | bucket
      · have hst : (n.Remove p).1 = n := by
          simp [stringLookup.Remove, hop, halk, hb]
        rw [hst]; exact h
      · rcases hrm : removeStored p bucket with _ | b2
        · have hst : (n.Remove p).1 = n := by
            simp [stringLookup.Remove, hop, halk, hb, hrm]
          rw [hst]; exact h
        · have hst : (n.Remove p).1 = { n with
              inequality := aset n.inequality p.Predicate.Ident
                (aset vm (hash p.Predicate.LiteralAsString) b2) } := by
            simp [stringLookup.Remove, hop, halk, hb, hrm]
          rw [hst]
          intro pr hpr sp hsp
          exact h pr hpr sp hsp
  · have hst : (n.Remove p).1 = n := by simp [stringLookup.Remove, hop]
    rw [hst]; exact h

/-- **C7 counterexample**: the claimed invariant "the observed field-path
set equals the set of distinct identifiers of the stored equality parts"
fails on a reachable state.  After `Add` then `Remove` of
`status == "active"`, `vars` still holds `"status"` while the equality
index stores no parts at all: `Remove` splices the bucket but never
deletes from `vars`. -/
theorem C7_vars_invariant_counterexample :
    Reachable ((newStringEqualityMatcher.Add pEq).1.Remove pEq).1 ∧
    ¬varsEqualsStoredIdents
      ((newStringEqualityMatcher.Add pEq).1.Remove pEq).1 := by
  constructor
  · exact Reachable.remove pEq (Reachable.add pEq Reachable.init)
  · intro hinv
    have h := (hinv "status").mp (by decide)
    revert h
    decide

/-- **C7 amended**: in every state reachable by any sequence of `Add` and
`Remove`, the observed field-path set *contains* the identifier of every
part stored in the equality index's buckets; the claimed set equality
fails only in the other direction, because `Remove` never deletes a field
path from `vars` (see the counterexample). -/
theorem C7_vars_contains_stored_idents (n : stringLookup)
    (hn : Reachable n) : VarsSup n := by
  induction hn with
  | init =>
    intro pr hpr sp hsp
    simp [newStringEqualityMatcher] at hpr
  | add p hr ih => exact varsSup_add _ p ih
  | remove p hr ih => exact varsSup_remove _ p ih

/-- C7 amended, at a concrete reachable state. -/
theorem C7_vars_contains_stored_idents_witness :
    VarsSup (newStringEqualityMatcher.Add pEq).1 :=
  C7_vars_contains_stored_idents (newStringEqualityMatcher.Add pEq).1
    (Reachable.add pEq Reachable.init)

theorem nodup_append_singleton {α : Type} {l : List α} {x : α}
    (h : l.Nodup) (hx : x ∉ l) : (l ++ [x]).Nodup := by
  rw [List.nodup_append]
  refine ⟨h, List.nodup_singleton x, ?_⟩
  intro a ha hax
  have hne : a = x := by simpa using hax
  exact hx (hne ▸ ha)

/-- `Add` of a part whose stored form is fresh preserves bucket
duplicate-freedom and the seen-list bound. -/
theorem nodupInv_add (seen : List StoredExpressionPart) (n : stringLookup)
    (p : ExpressionPart) (h1 : BucketsNodup n) (h2 : BucketsInSeen seen n)
    (hfresh : p.ToStored ∉ seen) :
    BucketsNodup (n.Add p).1 ∧
      BucketsInSeen (p.ToStored :: seen) (n.Add p).1 := by
  rcases hop : p.Predicate.Operator with _ | _ | _
  · rw [add_eq_state n p hop]
    refine ⟨⟨?_, h1.2⟩, ⟨?_, ?_⟩⟩
    · intro pr hpr
      rcases mem_aset hpr with hnew | hold
      · subst hnew
        rcases halk : alookup n.equality (hash p.Predicate.Literal)
            with _ | coll
        · simp
        · show (((some coll).getD []) ++ [p.ToStored]).Nodup
          simp only [Option.getD_some]
          refine nodup_append_singleton (h1.1 _ (alookup_mem halk)) ?_
          intro hmem
          exact hfresh (h2.1 _ (alookup_mem halk) _ hmem)
      · exact h1.1 pr hold
    · intro pr hpr sp hsp
      rcases mem_aset hpr with hnew | hold
      · subst hnew
        rcases List.mem_append.mp hsp with hm | hm
        · rcases halk : alookup n.equality (hash p.Predicate.Literal)
              with _ | coll
          · rw [halk] at hm
            simp at hm
          · rw [halk] at hm
            simp only [Option.getD_some] at hm
            exact List.mem_cons_of_mem _ (h2.1 _ (alookup_mem halk) sp hm)
        · have hsp0 : sp = p.ToStored := by simpa using hm
          subst hsp0
          exact List.mem_cons_self _ _
      · exact List.mem_cons_of_mem _ (h2.1 pr hold sp hsp)
    · intro pr hpr qr hqr sp hsp
      exact List.mem_cons_of_mem _ (h2.2 pr hpr qr hqr sp hsp)
  · rw [add_neq_state n p hop]
    refine ⟨⟨h1.1, ?_⟩, ⟨?_, ?_⟩⟩
    · intro pr hpr qr hqr
      rcases mem_aset hpr with hnew | hold
      · subst hnew
        rcases mem_aset hqr with hq | hq
        · subst hq
          rcases halk : alookup n.inequality p.Predicate.Ident with _ | vm
          · simp [alookup]
          · simp only [Option.getD_some]
            rcases hb : alookup vm (hash p.Predicate.Literal) with _ | b
            · simp
            · simp only [Option.getD_some]
              refine nodup_append_singleton
                (h1.2 _ (alookup_mem halk) _ (alookup_mem hb)) ?_
              intro hmem
              exact hfresh
                (h2.2 _ (alookup_mem halk) _ (alookup_mem hb) _ hmem)
        · rcases halk : alookup n.inequality p.Predicate.Ident with _ | vm
          · rw [halk] at hq
            simp at hq
          · rw [halk] at hq
            simp only [Option.getD_some] at hq
            exact h1.2 _ (alookup_mem halk) qr hq
      · exact h1.2 pr hold qr hqr
    · intro pr hpr sp hsp
      exact List.mem_cons_of_mem _ (h2.1 pr hpr sp hsp)
    · intro pr hpr qr hqr sp hsp
      rcases mem_aset hpr with hnew | hold
      · subst hnew
        rcases mem_aset hqr with hq | hq
        · subst hq
          rcases List.mem_append.mp hsp with hm | hm
          · rcases halk : alookup n.inequality p.Predicate.Ident with _ | vm
            · rw [halk] at hm
              simp [alookup] at hm
            · rw [halk] at hm
              simp only [Option.getD_some] at hm
              rcases hb : alookup vm (hash p.Predicate.Literal) with _ | b
              · rw [hb] at hm
                simp at hm
              · rw [hb] at hm
                simp only [Option.getD_some] at hm
                exact List.mem_cons_of_mem _
                  (h2.2 _ (alookup_mem halk) _ (alookup_mem hb) _ hm)
          · have hsp0 : sp = p.ToStored := by simpa using hm
            subst hsp0
            exact List.mem_cons_self _ _
        · rcases halk : alookup n.inequality p.Predicate.Ident with _ | vm
          · rw [halk] at hq
            simp at hq
          · rw [halk] at hq
            simp only [Option.getD_some] at hq
            exact List.mem_cons_of_mem _
              (h2.2 _ (alookup_mem halk) qr hq sp hsp)
      · exact List.mem_cons_of_mem _ (h2.2 pr hold qr hqr sp hsp)
  · have hst : (n.Add p).1 = n := by simp [stringLookup.Add, hop]
    rw [hst]
    refine ⟨h1, ⟨?_, ?_⟩⟩
    · intro pr hpr sp hsp
      exact List.mem_cons_of_mem _ (h2.1 pr hpr sp hsp)
    · intro pr hpr qr hqr sp hsp
      exact List.mem_cons_of_mem _ (h2.2 pr hpr qr hqr sp hsp)

/-- `Remove` preserves bucket duplicate-freedom and the seen-list
bound. -/
theorem nodupInv_remove (seen : List StoredExpressionPart)
    (n : stringLookup) (p : ExpressionPart) (h1 : BucketsNodup n)
    (h2 : BucketsInSeen seen n) :
    BucketsNodup (n.Remove p).1 ∧ BucketsInSeen seen (n.Remove p).1 := by
  rcases hop : p.Predicate.Operator with _ | _ | _
  · rcases halk : alookup n.equality (hash p.Predicate.LiteralAsString)
        with _ | coll
    · have hst : (n.Remove p).1 = n := by
        simp [stringLookup.Remove, hop, halk]
      rw [hst]; exact ⟨h1, h2⟩
    · rcases hrm : removeStored p coll with _ | coll2
      · have hst : (n.Remove p).1 = n := by
          simp [stringLookup.Remove, hop, halk, hrm]
        rw [hst]; exact ⟨h1, h2⟩
      · have hst : (n.Remove p).1 = { n with
            equality := aset n.equality (hash p.Predicate.LiteralAsString)
              coll2 } := by
          simp [stringLookup.Remove, hop, halk, hrm]
        rw [hst]
        refine ⟨⟨?_, h1.2⟩, ⟨?_, h2.2⟩⟩
        · intro pr hpr
          rcases mem_aset hpr with hnew | hold
          · subst hnew
            exact List.Nodup.sublist (removeStored_sublist hrm)
              (h1.1 _ (alookup_mem halk))
          · exact h1.1 pr hold
        · intro pr hpr sp hsp
          rcases mem_aset hpr with hnew | hold
          · subst hnew
            exact h2.1 _ (alookup_mem halk) sp
              ((removeStored_sublist hrm).subset hsp)
          · exact h2.1 pr hold sp hsp
  · rcases halk : alookup n.inequality p.Predicate.Ident with _ | vm
    · have hst : (n.Remove p).1 = n := by
        simp [stringLookup.Remove, hop, halk]
      rw [hst]; exact ⟨h1, h2⟩
    · rcases hb : alookup vm (hash p.Predicate.LiteralAsString)
          with _ | bucket
      · have hst : (n.Remove p).1 = n := by
          simp [stringLookup.Remove, hop, halk, hb]
        rw [hst]; exact ⟨h1, h2⟩
      · rcases hrm : removeStored p bucket with _ | b2
        · have hst : (n.Remove p).1 = n := by
            simp [stringLookup.Remove, hop, halk, hb, hrm]
          rw [hst]; exact ⟨h1, h2⟩
        · have hst : (n.Remove p).1 = { n with
              inequality := aset n.inequality p.Predicate.Ident
                (aset vm (hash p.Predicate.LiteralAsString) b2) } := by
            simp [stringLookup.Remove, hop, halk, hb, hrm]
          rw [hst]
          refine ⟨⟨h1.1, ?_⟩, ⟨h2.1, ?_⟩⟩
          · intro pr hpr qr hqr
            rcases mem_aset hpr with hnew | hold
            · subst hnew
              rcases mem_aset hqr with hq | hq
              · subst hq
                exact List.Nodup.sublist (removeStored_sublist hrm)
                  (h1.2 _ (alookup_mem halk) _ (alookup_mem hb))
              · exact h1.2 _ (alookup_mem halk) qr hq
            · exact h1.2 pr hold qr hqr
          · intro pr hpr qr hqr sp hsp
            rcases mem_aset hpr with hnew | hold
            · subst hnew
              rcases mem_aset hqr with hq | hq
              · subst hq
                exact h2.2 _ (alookup_mem halk) _ (alookup_mem hb) sp
                  ((removeStored_sublist hrm).subset hsp)
              · exact h2.2 _ (alookup_mem halk) qr hq sp hsp
            · exact h2.2 pr hold qr hqr sp hsp
  · have hst : (n.Remove p).1 = n := by simp [stringLookup.Remove, hop]
    rw [hst]; exact ⟨h1, h2⟩

/-- Along distinct-`Add` histories, buckets stay duplicate-free and hold
only parts seen by some `Add`. -/
theorem reachableDistinct_inv {seen : List StoredExpressionPart}
    {n : stringLookup} (h : ReachableDistinct seen n) :
    BucketsNodup n ∧ BucketsInSeen seen n := by
  induction h with
  | init =>
    refine ⟨⟨?_, ?_⟩, ⟨?_, ?_⟩⟩ <;>
      simp [newStringEqualityMatcher, BucketsNodup, BucketsInSeen]
  | add p hr hfresh ih => exact nodupInv_add _ _ p ih.1 ih.2 hfresh
  | remove p hr ih => exact nodupInv_remove _ _ p ih.1 ih.2

/-- **C8 counterexample**: the claim fails on a reachable state.  `Add`
appends the stored form unconditionally, so adding the same part twice
leaves its equality bucket holding two stored parts that are equal under
the storage-equality contract. -/
theorem C8_buckets_nodup_counterexample :
    Reachable ((newStringEqualityMatcher.Add pEq).1.Add pEq).1 ∧
    ¬BucketsNodup ((newStringEqualityMatcher.Add pEq).1.Add pEq).1 := by
  constructor
  · exact Reachable.add pEq (Reachable.add pEq Reachable.init)
  · simp only [BucketsNodup]
    decide

/-- **C8 amended**: in every state reached by a history in which no two
`Add` calls carry the same stored form, a `StoredExpressionPart` appears
at most once within any single equality bucket and at most once within
any single (field path, hash) inequality bucket.  The restriction on the
history is forced: a repeated `Add` of one part duplicates it within its
bucket (see the counterexample). -/
theorem C8_buckets_nodup_amended (seen : List StoredExpressionPart)
    (n : stringLookup) (h : ReachableDistinct seen n) : BucketsNodup n :=
  (reachableDistinct_inv h).1

/-- C8 amended, at a concrete state reached by one `Add`. -/
theorem C8_buckets_nodup_amended_witness :
    BucketsNodup (newStringEqualityMatcher.Add pEq).1 :=
  C8_buckets_nodup_amended [pEq.ToStored]
    (newStringEqualityMatcher.Add pEq).1
    (ReachableDistinct.add pEq ReachableDistinct.init (by decide))

end ExprEngine
